import Mathlib

/-!
Verification development for `util/multi_parameter_analysis_functions.py`
(scCODA multi-parameter study analysis).

The Python code operates on pandas `Series`/`DataFrame` objects holding IEEE
doubles.  We model a float cell as `PVal`: an exact rational number, NaN, or a
signed infinity; the arithmetic cases (NaN propagation, signed-infinity rules,
`0/0 = NaN`, `x/0 = ±inf`) follow IEEE / numpy semantics, with the one caveat
that rationals carry no signed zero, so a zero denominator is treated as `+0`.
`np.sqrt` is irrational on most rationals; `PVal.sqrtv` uses `Rat.sqrt`, which
agrees with the real square root on perfect squares — in particular at `0`,
the only point at which any theorem below inspects the value of a square root
(negative arguments give NaN, as in numpy).

A DataFrame is modelled column-wise as an association list from column name to
a list of cells; `setCol` mirrors pandas column assignment (`df[c] = v`):
overwrite in place when the column exists, append a new rightmost column
otherwise.
-/


/-- A pandas float cell: an exact rational, NaN, or a signed infinity. -/
inductive PVal where
  | num : ℚ → PVal
  | nan : PVal
  | pinf : PVal
  | ninf : PVal
deriving DecidableEq, Repr

namespace PVal

/-- IEEE addition on `PVal`. -/
def add : PVal → PVal → PVal
  | .nan, _ => .nan
  | _, .nan => .nan
  | .pinf, .ninf => .nan
  | .ninf, .pinf => .nan
  | .pinf, _ => .pinf
  | _, .pinf => .pinf
  | .ninf, _ => .ninf
  | _, .ninf => .ninf
  | .num a, .num b => .num (a + b)

/-- IEEE subtraction on `PVal`. -/
def sub : PVal → PVal → PVal
  | .nan, _ => .nan
  | _, .nan => .nan
  | .pinf, .pinf => .nan
  | .ninf, .ninf => .nan
  | .pinf, _ => .pinf
  | .ninf, _ => .ninf
  | _, .pinf => .ninf
  | _, .ninf => .pinf
  | .num a, .num b => .num (a - b)

/-- IEEE multiplication on `PVal` (`inf * 0 = NaN`). -/
def mul : PVal → PVal → PVal
  | .nan, _ => .nan
  | _, .nan => .nan
  | .pinf, .pinf => .pinf
  | .pinf, .ninf => .ninf
  | .ninf, .pinf => .ninf
  | .ninf, .ninf => .pinf
  | .pinf, .num b => if b = 0 then .nan else if 0 < b then .pinf else .ninf
  | .num a, .pinf => if a = 0 then .nan else if 0 < a then .pinf else .ninf
  | .ninf, .num b => if b = 0 then .nan else if 0 < b then .ninf else .pinf
  | .num a, .ninf => if a = 0 then .nan else if 0 < a then .ninf else .pinf
  | .num a, .num b => .num (a * b)

/-- IEEE division on `PVal`: `0/0 = NaN`, `x/0 = ±inf` for `x ≠ 0`
(the zero denominator is treated as `+0`: ℚ has no signed zero). -/
def div : PVal → PVal → PVal
  | .nan, _ => .nan
  | _, .nan => .nan
  | .num a, .num b =>
      if b = 0 then (if a = 0 then .nan else if 0 < a then .pinf else .ninf)
      else .num (a / b)
  | .num _, .pinf => .num 0
  | .num _, .ninf => .num 0
  | .pinf, .num b => if 0 ≤ b then .pinf else .ninf
  | .ninf, .num b => if 0 ≤ b then .ninf else .pinf
  | .pinf, _ => .nan
  | .ninf, _ => .nan

/-- `np.sqrt` on a cell: NaN for NaN and negative arguments, `inf` for `inf`.
On non-negative rationals we use `Rat.sqrt`, exact on perfect squares (the
development only ever inspects the value at `0`). -/
def sqrtv : PVal → PVal
  | .nan => .nan
  | .pinf => .pinf
  | .ninf => .nan
  | .num a => if a < 0 then .nan else .num (Rat.sqrt a)

/-- `Series.fillna(d)` on a single cell: replaces NaN (and only NaN) by `d`. -/
def fillna (v : PVal) (d : ℚ) : PVal :=
  match v with
  | .nan => .num d
  | x => x

/-- `np.isnan` on a cell (false on infinities). -/
def isnan : PVal → Bool
  | .nan => true
  | _ => false

/-- Elementwise `>` as numpy evaluates it: any comparison with NaN is false. -/
def gtb : PVal → PVal → Bool
  | .nan, _ => false
  | _, .nan => false
  | .num a, .num b => decide (b < a)
  | .pinf, .pinf => false
  | .pinf, _ => true
  | _, .pinf => false
  | .ninf, .ninf => false
  | .num _, .ninf => true
  | .ninf, _ => false

end PVal

/-- A DataFrame, column-wise: column name to list of cells, in column order. -/
abbrev DF := List (String × List PVal)

/-- Column names of a DataFrame, left to right. -/
def colNames (df : DF) : List String := df.map (fun p => p.1)

/-- Whether the DataFrame has a column named `c` (`c in df.columns`). -/
def hasCol : DF → String → Bool
  | [], _ => false
  | (c1, _) :: rest, c => if c1 = c then true else hasCol rest c

/-- Column access `df[c]`; `[]` when absent (the pipeline only reads columns
that its input format guarantees to exist, so the default is never hit by the
theorems below). -/
def getCol : DF → String → List PVal
  | [], _ => []
  | (c1, v) :: rest, c => if c1 = c then v else getCol rest c

/-- Replace the values of existing column `c` in place. -/
def replaceCol : DF → String → List PVal → DF
  | [], _, _ => []
  | (c1, w) :: rest, c, v =>
      if c1 = c then (c, v) :: replaceCol rest c v else (c1, w) :: replaceCol rest c v

/-- Pandas column assignment `df[c] = v`: overwrite in place when present,
append as a new rightmost column otherwise. -/
def setCol (df : DF) (c : String) (v : List PVal) : DF :=
  if hasCol df c then replaceCol df c v else df ++ [(c, v)]

/-- Three-list `zipWith` (elementwise combination of three columns). -/
def zipWith3 (f : α → α → α → β) : List α → List α → List α → List β
  | a :: as, b :: bs, c :: cs => f a b c :: zipWith3 f as bs cs
  | _, _, _ => []

/-- Four-list `zipWith` (elementwise combination of four columns). -/
def zipWith4 (f : α → α → α → α → β) : List α → List α → List α → List α → List β
  | a :: as, b :: bs, c :: cs, d :: ds => f a b c d :: zipWith4 f as bs cs ds
  | _, _, _, _ => []


/-! ## The summary-statistics engine (`get_scores`)

Scalar (per-row) forms of the column formulas in `get_scores`.  Each is a
literal transcription of the corresponding pandas expression; the column-level
function below lifts them elementwise, which is exactly how pandas evaluates
the series expressions. -/

/-- `(tp / (tp + fn)).fillna(0)`, per row. -/
def tprVal (tp fn : PVal) : PVal := (tp.div (tp.add fn)).fillna 0

/-- `(tn / (tn + fp)).fillna(0)`, per row. -/
def tnrVal (tn fp : PVal) : PVal := (tn.div (tn.add fp)).fillna 0

/-- `(tp / (tp + fp)).fillna(0)`, per row. -/
def precisionVal (tp fp : PVal) : PVal := (tp.div (tp.add fp)).fillna 0

/-- `(tp + tn) / (tp + tn + fp + fn).fillna(0)`, per row.  Note: in the source
the `.fillna(0)` is applied to the DENOMINATOR series, not to the quotient —
this transcribes the code as written. -/
def accuracyVal (tp tn fp fn : PVal) : PVal :=
  (tp.add tn).div ((((tp.add tn).add fp).add fn).fillna 0)

/-- `tpr + tnr - 1`, per row. -/
def youdenVal (tp tn fp fn : PVal) : PVal :=
  ((tprVal tp fn).add (tnrVal tn fp)).sub (.num 1)

/-- `2 * (tpr * precision / (tpr + precision)).fillna(0)`, per row. -/
def f1Val (tp fp fn : PVal) : PVal :=
  (PVal.num 2).mul ((((tprVal tp fn).mul (precisionVal tp fp)).div
    ((tprVal tp fn).add (precisionVal tp fp))).fillna 0)

/-- `((tp*tn - fp*fn) / np.sqrt((tp+fp)*(tp+fn)*(tn+fp)*(tn+fn))).fillna(0)`,
per row. -/
def mccVal (tp tn fp fn : PVal) : PVal :=
  (((tp.mul tn).sub (fp.mul fn)).div
    (PVal.sqrtv ((((tp.add fp).mul (tp.add fn)).mul (tn.add fp)).mul (tn.add fn)))).fillna 0

/-- The `tpr` column of `get_scores`, computed from the input columns. -/
def tprCol (df : DF) : List PVal := List.zipWith tprVal (getCol df "tp") (getCol df "fn")

/-- The `tnr` column of `get_scores`. -/
def tnrCol (df : DF) : List PVal := List.zipWith tnrVal (getCol df "tn") (getCol df "fp")

/-- The `precision` column of `get_scores`. -/
def precisionCol (df : DF) : List PVal :=
  List.zipWith precisionVal (getCol df "tp") (getCol df "fp")

/-- The `accuracy` column of `get_scores`. -/
def accuracyCol (df : DF) : List PVal :=
  zipWith4 accuracyVal (getCol df "tp") (getCol df "tn") (getCol df "fp") (getCol df "fn")

/-- The `youden` column of `get_scores`. -/
def youdenCol (df : DF) : List PVal :=
  zipWith4 youdenVal (getCol df "tp") (getCol df "tn") (getCol df "fp") (getCol df "fn")

/-- The `f1_score` column of `get_scores`. -/
def f1Col (df : DF) : List PVal :=
  zipWith3 f1Val (getCol df "tp") (getCol df "fp") (getCol df "fn")

/-- The `mcc` column of `get_scores`. -/
def mccCol (df : DF) : List PVal :=
  zipWith4 mccVal (getCol df "tp") (getCol df "tn") (getCol df "fp") (getCol df "fn")

/-- `get_scores(agg_df)`: reads `tp`, `tn`, `fp`, `fn` and assigns the seven
derived columns `tpr`, `tnr`, `precision`, `accuracy`, `youden`, `f1_score`,
`mcc`, in the source's assignment order.  In the source the reads of
`tp`,`tn`,`fp`,`fn` all happen before any assignment and no assignment touches
a column that is subsequently read, so reading every input column from the
original `df` (as the `...Col` helpers do) yields the same table as the
source's interleaved compute-and-assign sequence. -/
def get_scores (df : DF) : DF :=
  setCol (setCol (setCol (setCol (setCol (setCol (setCol df
    "tpr" (tprCol df)) "tnr" (tnrCol df)) "precision" (precisionCol df))
    "accuracy" (accuracyCol df)) "youden" (youdenCol df)) "f1_score" (f1Col df))
    "mcc" (mccCol df)

/-- The seven column names `get_scores` assigns, in assignment order. -/
def scoreNames : List String :=
  ["tpr", "tnr", "precision", "accuracy", "youden", "f1_score", "mcc"]



/-! ## The per-run metric finalizer

`np.where(np.isnan(mean_nonzero), mean, np.where(inclusion_prob > threshold,
mean_nonzero, 0))`, evaluated elementwise over the three columns of a
sub-result's `params` table. -/

/-- One element of the `final_parameter` column, exactly the nested `np.where`
of the source (`numpy` makes any comparison against NaN false, so a NaN
inclusion probability falls into the `0` branch). -/
def finalParameter (custom_threshold : ℚ) (mean mean_nonzero inclusion_prob : PVal) : PVal :=
  if mean_nonzero.isnan then mean
  else if inclusion_prob.gtb (.num custom_threshold) then mean_nonzero
  else .num 0

/-- The single-model finalization of one sub-result's `params` table
(`multi_run_study_analysis_prepare` and `..._prepare_per_param`, which share
this code verbatim): unconditionally assigns a `final_parameter` column. -/
def finalizeParams (custom_threshold : ℚ) (params : DF) : DF :=
  setCol params "final_parameter"
    (zipWith3 (finalParameter custom_threshold)
      (getCol params "mean") (getCol params "mean_nonzero") (getCol params "inclusion_prob"))

/-- The multi-model finalization of one second-level sub-result's `params`
table (`multi_run_study_analysis_multi_model_prepare`): guarded by
`if "mean_nonzero" in r2_i.params.columns`. -/
def finalizeParamsMultiModel (custom_threshold : ℚ) (params : DF) : DF :=
  if hasCol params "mean_nonzero" then
    setCol params "final_parameter"
      (zipWith3 (finalParameter custom_threshold)
        (getCol params "mean") (getCol params "mean_nonzero") (getCol params "inclusion_prob"))
  else params


/-! ## Run objects, the directory loop, and aggregation

A run's `parameters` table has one row per sub-run: the seven
simulation-parameter columns that `prepare` stringifies and groups by, plus
the numeric confusion counts attached by `get_discovery_rates`.  `n_samples`,
`b_true` and `w_true` are vector-valued cells. -/

/-- One row of a run's `parameters` table. -/
structure ParamRow where
  cases : ℤ
  K : ℤ
  n_total : ℤ
  n_samples : List ℤ
  b_true : List ℚ
  w_true : List ℚ
  num_results : ℤ
  tp : ℚ
  tn : ℚ
  fp : ℚ
  fn : ℚ
deriving DecidableEq, Repr

/-- The stringified simulation-parameter tuple of a row — the group key of
`groupby(simulation_parameters)` after
`all_study_params[simulation_parameters].astype(str)`.  Lean's `toString`
plays the role of Python's `str`; grouping only depends on equal values
mapping to equal strings. -/
def aggKey (r : ParamRow) : List String :=
  [toString r.cases, toString r.K, toString r.n_total, toString r.n_samples,
   toString r.b_true, toString r.w_true, toString r.num_results]

/-- The summed numeric columns of one aggregated group. -/
structure Counts where
  tp : ℚ
  tn : ℚ
  fp : ℚ
  fn : ℚ
deriving DecidableEq, Repr

/-- Componentwise sum of numeric columns (what `.sum()` does within a group). -/
def Counts.add (x y : Counts) : Counts :=
  ⟨x.tp + y.tp, x.tn + y.tn, x.fp + y.fp, x.fn + y.fn⟩

/-- The all-zero group sum. -/
def Counts.zero : Counts := ⟨0, 0, 0, 0⟩

/-- The numeric columns of one row. -/
def rowCounts (r : ParamRow) : Counts := ⟨r.tp, r.tn, r.fp, r.fn⟩

/-- The group of the aggregated table at key `k`: the sum of the numeric
columns over all rows whose stringified simulation-parameter tuple is `k`
(`groupby(simulation_parameters).sum()` looked up at `k`). -/
def aggAt (rows : List ParamRow) (k : List String) : Counts :=
  ((rows.filter (fun r => decide (aggKey r = k))).map rowCounts).foldr Counts.add Counts.zero

/-- The set of group keys of the aggregated table. -/
def aggKeysFinset (rows : List ParamRow) : Finset (List String) :=
  (rows.map aggKey).toFinset

/-- The aggregated table `all_study_params_agg.reset_index()`: one row per
distinct stringified parameter tuple, with summed numeric columns.  (Pandas
orders groups by sorted key; we keep first-occurrence order — the table as a
key-indexed family of group sums is the same.) -/
def aggregateTable (rows : List ParamRow) : List (List String × Counts) :=
  ((rows.map aggKey).dedup).map (fun k => (k, aggAt rows k))

/-- A sub-result object (`MCMCResult`): its per-coefficient `params` table. -/
structure MCMCResult where
  params : DF
deriving DecidableEq, Repr

/-- A loaded run object (`MultiParamSampling` result).  `raw_params` models the
name-mangled `_MCMCResult__raw_params` attribute (the raw MCMC chains). -/
structure RunResult where
  parameters : List ParamRow
  mcmc_results : List MCMCResult
  raw_params : List (String × List ℚ)
deriving DecidableEq, Repr

/-- The finalization loop `for r_k, r_i in r.mcmc_results.items()` of the
single-model prepare functions. -/
def finalizeRun (custom_threshold : ℚ) (r : RunResult) : RunResult :=
  { r with mcmc_results :=
      r.mcmc_results.map (fun m => { m with params := finalizeParams custom_threshold m.params }) }

/-- Python's substring test `sub in s`, on the character lists. -/
def containsSub (sub : String) (s : String) : Bool :=
  subAux sub.data s.data
where
  /-- `sub` occurs as a contiguous infix of `l`. -/
  subAux (sub : List Char) : List Char → Bool
    | [] => sub.isEmpty
    | c :: cs => sub.isPrefixOf (c :: cs) || subAux sub cs

/-- The per-file body of the prepare loop: finalize every sub-result, invoke
the discovery-rate computation `disc` (a method of the externally produced
result class, not part of this file's sources — passed as a parameter), then
either keep the run as is (`keep_results=True`) or empty its
`_MCMCResult__raw_params` attribute first; either way the run is appended. -/
def processRun (custom_threshold : ℚ) (disc : RunResult → RunResult) (keep_results : Bool)
    (r : RunResult) : RunResult :=
  let r2 := disc (finalizeRun custom_threshold r)
  if keep_results then r2 else { r2 with raw_params := [] }

/-- The `results` list built by the directory loop: one processed run per file
whose name contains `file_identifier` as a substring.  The directory is
modelled as the list of (file name, unpickled run) pairs. -/
def prepRuns (files : List (String × RunResult)) (file_identifier : String)
    (custom_threshold : ℚ) (disc : RunResult → RunResult) (keep_results : Bool) :
    List RunResult :=
  (files.filter (fun fr => containsSub file_identifier fr.1)).map
    (fun fr => processRun custom_threshold disc keep_results fr.2)

/-- `multi_run_study_analysis_prepare`: runs the directory loop, then
`pd.concat([r.parameters for r in results])` — which raises
`ValueError("No objects to concatenate")` when `results` is empty — then
stringifies the simulation-parameter columns and aggregates.  The empty
concatenation is the only failure mode modelled; load failures propagate
outside this model. -/
def multi_run_study_analysis_prepare (files : List (String × RunResult))
    (file_identifier : String) (custom_threshold : ℚ) (disc : RunResult → RunResult)
    (keep_results : Bool) :
    Except String (List RunResult × List ParamRow × List (List String × Counts)) :=
  let results := prepRuns files file_identifier custom_threshold disc keep_results
  if results.isEmpty then .error "No objects to concatenate"
  else
    let all_study_params := (results.map (fun r => r.parameters)).flatten
    .ok (results, all_study_params, aggregateTable all_study_params)

/-- A one-row aggregated table with `tp=8, tn=7, fp=3, fn=2`. -/
def exampleAgg : DF :=
  [("tp", [PVal.num 8]), ("tn", [PVal.num 7]), ("fp", [PVal.num 3]), ("fn", [PVal.num 2])]

/-- A concrete parameters-table row used as a witness input. -/
def sampleRow : ParamRow :=
  { cases := 1, K := 2, n_total := 1000, n_samples := [5, 5], b_true := [1/2],
    w_true := [1], num_results := 1000, tp := 3, tn := 4, fp := 1, fn := 2 }

/-- A concrete run object used as a witness input. -/
def sampleRun : RunResult := { parameters := [], mcmc_results := [], raw_params := [] }


/-! ## DataFrame lemmas -/

theorem hasCol_append (d1 d2 : DF) (c : String) :
    hasCol (d1 ++ d2) c = (hasCol d1 c || hasCol d2 c) := by
  induction d1 with
  | nil => simp [hasCol]
  | cons p rest ih =>
    obtain ⟨c1, v⟩ := p
    by_cases h : c1 = c <;> simp [hasCol, h, ih]

theorem getCol_append (d1 d2 : DF) (c : String) :
    getCol (d1 ++ d2) c = if hasCol d1 c then getCol d1 c else getCol d2 c := by
  induction d1 with
  | nil => simp [getCol, hasCol]
  | cons p rest ih =>
    obtain ⟨c1, v⟩ := p
    by_cases h : c1 = c <;> simp [getCol, hasCol, h, ih]

theorem getCol_replaceCol_self (df : DF) (t : String) (v : List PVal)
    (h : hasCol df t = true) : getCol (replaceCol df t v) t = v := by
  induction df with
  | nil => simp [hasCol] at h
  | cons p rest ih =>
    obtain ⟨c1, w⟩ := p
    by_cases hc : c1 = t
    · simp [replaceCol, hc, getCol]
    · simp [hasCol, hc] at h
      simp [replaceCol, hc, getCol, ih h]

theorem getCol_setCol_self (df : DF) (t : String) (v : List PVal) :
    getCol (setCol df t v) t = v := by
  by_cases h : hasCol df t = true
  · simp [setCol, h, getCol_replaceCol_self df t v h]
  · have h' : hasCol df t = false := by simpa using h
    simp [setCol, h', getCol_append, getCol]

theorem hasCol_replaceCol (df : DF) (t : String) (v : List PVal) (c : String) :
    hasCol (replaceCol df t v) c = hasCol df c := by
  induction df with
  | nil => simp [replaceCol]
  | cons p rest ih =>
    obtain ⟨c1, w⟩ := p
    by_cases hc : c1 = t
    · subst hc
      simp [replaceCol, hasCol, ih]
    · simp [replaceCol, hc, hasCol, ih]

theorem hasCol_setCol_self (df : DF) (t : String) (v : List PVal) :
    hasCol (setCol df t v) t = true := by
  by_cases h : hasCol df t = true
  · simp [setCol, h, hasCol_replaceCol, h]
  · have h' : hasCol df t = false := by simpa using h
    simp [setCol, h', hasCol_append, hasCol]

theorem colNames_append (d1 d2 : DF) : colNames (d1 ++ d2) = colNames d1 ++ colNames d2 := by
  simp [colNames]

/-- Folding pandas column assignments over pairwise-distinct fresh column
names appends them all on the right. -/
theorem foldl_setCol_fresh (ps : List (String × List PVal)) (df : DF)
    (h : ∀ c ∈ ps.map Prod.fst, hasCol df c = false)
    (hnd : (ps.map Prod.fst).Nodup) :
    ps.foldl (fun d p => setCol d p.1 p.2) df = df ++ ps := by
  induction ps generalizing df with
  | nil => simp
  | cons p rest ih =>
    obtain ⟨t, v⟩ := p
    have ht : hasCol df t = false := h t (by simp)
    have hset : setCol df t v = df ++ [(t, v)] := by simp [setCol, ht]
    have hnd' : (rest.map Prod.fst).Nodup := (List.nodup_cons.mp (by simpa using hnd)).2
    have hmem : t ∉ rest.map Prod.fst := (List.nodup_cons.mp (by simpa using hnd)).1
    simp only [List.foldl_cons, hset]
    rw [ih (df ++ [(t, v)]) ?_ hnd']
    · simp
    · intro c hc
      have hc' : hasCol df c = false := h c (by simp [hc])
      have hne : t ≠ c := fun he => hmem (he ▸ hc)
      rw [hasCol_append]
      simp [hc', hasCol, hne]

/-- `get_scores` written as a single fold of its seven column assignments. -/
theorem get_scores_eq_foldl (df : DF) :
    get_scores df =
      [("tpr", tprCol df), ("tnr", tnrCol df), ("precision", precisionCol df),
       ("accuracy", accuracyCol df), ("youden", youdenCol df), ("f1_score", f1Col df),
       ("mcc", mccCol df)].foldl (fun d p => setCol d p.1 p.2) df := rfl

/-- On an input free of the seven score names, `get_scores` is exactly an
append of the seven new columns on the right. -/
theorem get_scores_eq_append (df : DF) (h : ∀ c ∈ scoreNames, hasCol df c = false) :
    get_scores df = df ++
      [("tpr", tprCol df), ("tnr", tnrCol df), ("precision", precisionCol df),
       ("accuracy", accuracyCol df), ("youden", youdenCol df), ("f1_score", f1Col df),
       ("mcc", mccCol df)] := by
  rw [get_scores_eq_foldl]
  refine foldl_setCol_fresh _ df ?_ (by simp)
  intro c hc
  refine h c ?_
  simpa [scoreNames] using hc

/-! ## Arithmetic helpers for the score formulas -/

theorem rat_sqrt_zero : Rat.sqrt 0 = 0 := by
  norm_num [Rat.sqrt]

/-- A filled ratio of non-negative numbers is a non-negative number (this is
the shared shape of `tpr`, `tnr` and `precision`). -/
theorem ratio_fill_nonneg (a b : ℚ) (ha : 0 ≤ a) (hb : 0 ≤ b) :
    ∃ x : ℚ, 0 ≤ x ∧ ((PVal.num a).div ((PVal.num a).add (PVal.num b))).fillna 0 = .num x := by
  by_cases h : a + b = 0
  · have ha0 : a = 0 := by linarith
    have hb0 : b = 0 := by linarith
    subst ha0; subst hb0
    exact ⟨0, le_refl 0, by norm_num [PVal.add, PVal.div, PVal.fillna]⟩
  · refine ⟨a / (a + b), ?_, ?_⟩
    · have hpos : 0 < a + b := lt_of_le_of_ne (by linarith) (Ne.symm h)
      exact div_nonneg ha (le_of_lt hpos)
    · simp [PVal.add, PVal.div, PVal.fillna, h]

theorem tprVal_num (a d : ℚ) (ha : 0 ≤ a) (hd : 0 ≤ d) :
    ∃ x : ℚ, 0 ≤ x ∧ tprVal (.num a) (.num d) = .num x :=
  ratio_fill_nonneg a d ha hd

theorem precisionVal_num (a c : ℚ) (ha : 0 ≤ a) (hc : 0 ≤ c) :
    ∃ x : ℚ, 0 ≤ x ∧ precisionVal (.num a) (.num c) = .num x :=
  ratio_fill_nonneg a c ha hc

theorem foldr_counts_append (l1 l2 : List Counts) :
    (l1 ++ l2).foldr Counts.add Counts.zero
      = (l1.foldr Counts.add Counts.zero).add (l2.foldr Counts.add Counts.zero) := by
  induction l1 with
  | nil =>
    simp only [List.nil_append, List.foldr_nil]
    simp [Counts.add, Counts.zero]
  | cons x rest ih =>
    simp only [List.cons_append, List.foldr_cons, ih]
    simp only [Counts.add, Counts.mk.injEq]
    refine ⟨by ring, by ring, by ring, by ring⟩


/-! ## The claims -/

/-- C1.  Each element of the `final_parameter` column computed by
`multi_run_study_analysis_prepare` (and `..._prepare_per_param`, which runs the
identical assignment) equals: the posterior mean when `mean_nonzero` is NaN;
else `mean_nonzero` when the inclusion probability strictly exceeds the
caller-supplied threshold; else `0` — in particular, an inclusion probability
exactly equal to the threshold yields `0`.  The last conjunct ties the scalar
case analysis to the column the finalizer assigns. -/
theorem final_parameter_spec (th q p : ℚ) (mean ip : PVal) (prm : DF) :
    finalParameter th mean .nan ip = mean
    ∧ (th < p → finalParameter th mean (.num q) (.num p) = .num q)
    ∧ (p ≤ th → finalParameter th mean (.num q) (.num p) = .num 0)
    ∧ getCol (finalizeParams th prm) "final_parameter"
        = zipWith3 (finalParameter th) (getCol prm "mean") (getCol prm "mean_nonzero")
            (getCol prm "inclusion_prob") := by
  refine ⟨?_, ?_, ?_, ?_⟩
  · simp [finalParameter, PVal.isnan]
  · intro hlt
    simp [finalParameter, PVal.isnan, PVal.gtb, hlt]
  · intro hle
    have hnl : ¬ th < p := not_lt.mpr hle
    simp [finalParameter, PVal.isnan, PVal.gtb, hnl]
  · exact getCol_setCol_self prm "final_parameter" _

/-- Witness for C1, at the spec's example: threshold `1/2`, `mean_nonzero = 2`;
inclusion probability `6/10` gives `2`, inclusion probability `4/10` gives `0`. -/
theorem final_parameter_spec_witness :
    ((1:ℚ)/2 < 6/10 ∧ finalParameter (1/2) (.num 3) (.num 2) (.num (6/10)) = .num 2)
    ∧ ((4:ℚ)/10 ≤ 1/2 ∧ finalParameter (1/2) (.num 3) (.num 2) (.num (4/10)) = .num 0) :=
  ⟨⟨by norm_num,
    (final_parameter_spec (1/2) 2 (6/10) (.num 3) (.num 0) []).2.1 (by norm_num)⟩,
   ⟨by norm_num,
    (final_parameter_spec (1/2) 2 (4/10) (.num 3) (.num 0) []).2.2.1 (by norm_num)⟩⟩

/-- C2 (counter-evaluation).  On an aggregated row with
`tp = tn = fp = fn = 0` the accuracy computed by `get_scores` is NaN, not `0`:
the source applies `.fillna(0)` to the denominator series
`(tp + tn + fp + fn)` — where it replaces nothing, `0` not being NaN — instead
of to the quotient, so the row evaluates to `0/0 = NaN`. -/
theorem accuracy_fillna_on_denominator_nan :
    accuracyVal (.num 0) (.num 0) (.num 0) (.num 0) = PVal.nan := by
  norm_num [accuracyVal, PVal.add, PVal.div, PVal.fillna]

/-- C3.  With non-negative confusion counts, a zero denominator in the `tpr`,
`tnr`, `precision`, `f1_score` or `mcc` formula yields the value `0` (not NaN
and not an error): the `0/0 = NaN` intermediate is mapped to `0` by the
`.fillna(0)` each of these formulas applies to its quotient.  Here `a`, `b`,
`c`, `d` are the row's `tp`, `tn`, `fp`, `fn`. -/
theorem zero_denominator_scores (a b c d : ℚ)
    (ha : 0 ≤ a) (hb : 0 ≤ b) (hc : 0 ≤ c) (hd : 0 ≤ d) :
    (a + d = 0 → tprVal (.num a) (.num d) = .num 0)
    ∧ (b + c = 0 → tnrVal (.num b) (.num c) = .num 0)
    ∧ (a + c = 0 → precisionVal (.num a) (.num c) = .num 0)
    ∧ ((tprVal (.num a) (.num d)).add (precisionVal (.num a) (.num c)) = .num 0 →
        f1Val (.num a) (.num c) (.num d) = .num 0)
    ∧ ((a + c) * (a + d) * (b + c) * (b + d) = 0 →
        mccVal (.num a) (.num b) (.num c) (.num d) = .num 0) := by
  refine ⟨?_, ?_, ?_, ?_, ?_⟩
  · intro h
    have ha0 : a = 0 := by linarith
    have hd0 : d = 0 := by linarith
    subst ha0; subst hd0
    norm_num [tprVal, PVal.add, PVal.div, PVal.fillna]
  · intro h
    have hb0 : b = 0 := by linarith
    have hc0 : c = 0 := by linarith
    subst hb0; subst hc0
    norm_num [tnrVal, PVal.add, PVal.div, PVal.fillna]
  · intro h
    have ha0 : a = 0 := by linarith
    have hc0 : c = 0 := by linarith
    subst ha0; subst hc0
    norm_num [precisionVal, PVal.add, PVal.div, PVal.fillna]
  · intro hsum
    obtain ⟨x, hx, hxe⟩ := tprVal_num a d ha hd
    obtain ⟨y, hy, hye⟩ := precisionVal_num a c ha hc
    rw [hxe, hye] at hsum
    simp only [PVal.add, PVal.num.injEq] at hsum
    have hx0 : x = 0 := by linarith
    have hy0 : y = 0 := by linarith
    rw [hx0] at hxe
    rw [hy0] at hye
    simp only [f1Val]
    rw [hxe, hye]
    norm_num [PVal.mul, PVal.add, PVal.div, PVal.fillna]
  · intro hprod
    rcases mul_eq_zero.mp hprod with h3 | hbd
    · rcases mul_eq_zero.mp h3 with h2 | hbc
      · rcases mul_eq_zero.mp h2 with hac | had
        · have ha0 : a = 0 := by linarith
          have hc0 : c = 0 := by linarith
          subst ha0; subst hc0
          norm_num [mccVal, PVal.add, PVal.sub, PVal.mul, PVal.div, PVal.sqrtv,
            PVal.fillna, rat_sqrt_zero]
        · have ha0 : a = 0 := by linarith
          have hd0 : d = 0 := by linarith
          subst ha0; subst hd0
          norm_num [mccVal, PVal.add, PVal.sub, PVal.mul, PVal.div, PVal.sqrtv,
            PVal.fillna, rat_sqrt_zero]
      · have hb0 : b = 0 := by linarith
        have hc0 : c = 0 := by linarith
        subst hb0; subst hc0
        norm_num [mccVal, PVal.add, PVal.sub, PVal.mul, PVal.div, PVal.sqrtv,
          PVal.fillna, rat_sqrt_zero]
    · have hb0 : b = 0 := by linarith
      have hd0 : d = 0 := by linarith
      subst hb0; subst hd0
      norm_num [mccVal, PVal.add, PVal.sub, PVal.mul, PVal.div, PVal.sqrtv,
        PVal.fillna, rat_sqrt_zero]

/-- Witness for C3, at the all-zero confusion row, where every zero-denominator
case fires at once. -/
theorem zero_denominator_scores_witness :
    tprVal (.num 0) (.num 0) = .num 0
    ∧ tnrVal (.num 0) (.num 0) = .num 0
    ∧ precisionVal (.num 0) (.num 0) = .num 0
    ∧ f1Val (.num 0) (.num 0) (.num 0) = .num 0
    ∧ mccVal (.num 0) (.num 0) (.num 0) (.num 0) = .num 0 := by
  have h := zero_denominator_scores 0 0 0 0 le_rfl le_rfl le_rfl le_rfl
  refine ⟨h.1 (by norm_num), h.2.1 (by norm_num), h.2.2.1 (by norm_num), ?_, h.2.2.2.2 (by norm_num)⟩
  refine h.2.2.2.1 ?_
  rw [(h.1 (by norm_num) : tprVal (.num 0) (.num 0) = .num 0),
      (h.2.2.1 (by norm_num) : precisionVal (.num 0) (.num 0) = .num 0)]
  norm_num [PVal.add]

/-- C4.  Aggregation is associative: at every stringified parameter tuple `k`,
the group sum over the concatenation of two row collections is the sum of the
two collections' group sums at `k`, and the key set of the union is the union
of the key sets — so aggregating two disjoint file sets separately and summing
matching groups yields the same aggregated table as one aggregation pass over
the union. -/
theorem aggregation_additive (xs ys : List ParamRow) (k : List String) :
    aggAt (xs ++ ys) k = (aggAt xs k).add (aggAt ys k)
    ∧ aggKeysFinset (xs ++ ys) = aggKeysFinset xs ∪ aggKeysFinset ys := by
  constructor
  · simp only [aggAt, List.filter_append, List.map_append]
    exact foldr_counts_append _ _
  · simp [aggKeysFinset]

/-- C5.  Two parameter rows whose vector-valued simulation-parameter cells are
element-wise equal (and whose scalar simulation parameters agree) receive the
same stringified group key, hence land in the same aggregated group: their
two-row table aggregates to a single group. -/
theorem stringified_grouping_by_value (r1 r2 : ParamRow)
    (hc : r1.cases = r2.cases) (hK : r1.K = r2.K) (hn : r1.n_total = r2.n_total)
    (hlen : r1.n_samples.length = r2.n_samples.length)
    (hel : ∀ (i : ℕ) (h1 : i < r1.n_samples.length) (h2 : i < r2.n_samples.length),
      r1.n_samples[i] = r2.n_samples[i])
    (hblen : r1.b_true.length = r2.b_true.length)
    (hbel : ∀ (i : ℕ) (h1 : i < r1.b_true.length) (h2 : i < r2.b_true.length),
      r1.b_true[i] = r2.b_true[i])
    (hwlen : r1.w_true.length = r2.w_true.length)
    (hwel : ∀ (i : ℕ) (h1 : i < r1.w_true.length) (h2 : i < r2.w_true.length),
      r1.w_true[i] = r2.w_true[i])
    (hr : r1.num_results = r2.num_results) :
    aggKey r1 = aggKey r2 ∧ ([r1, r2].map aggKey).dedup = [aggKey r1] := by
  have hns : r1.n_samples = r2.n_samples := List.ext_getElem hlen hel
  have hbt : r1.b_true = r2.b_true := List.ext_getElem hblen hbel
  have hwt : r1.w_true = r2.w_true := List.ext_getElem hwlen hwel
  have hkey : aggKey r1 = aggKey r2 := by
    simp [aggKey, hc, hK, hn, hns, hbt, hwt, hr]
  refine ⟨hkey, ?_⟩
  have : [r1, r2].map aggKey = [aggKey r1, aggKey r1] := by simp [hkey]
  rw [this]
  simp [List.dedup_cons_of_mem]

/-- Witness for C5, on two rows with element-wise-equal `[5, 5]` sample-size
vectors. -/
theorem stringified_grouping_by_value_witness :
    aggKey sampleRow = aggKey sampleRow
    ∧ ([sampleRow, sampleRow].map aggKey).dedup = [aggKey sampleRow] :=
  stringified_grouping_by_value sampleRow sampleRow rfl rfl rfl rfl
    (fun _ _ _ => rfl) rfl (fun _ _ _ => rfl) rfl (fun _ _ _ => rfl) rfl

/-- C6.  When no file name in the directory contains `file_identifier` as a
substring, the prepare loop collects no results and
`pd.concat([r.parameters for r in results])` fails with the concatenation
error — no empty tables are returned. -/
theorem empty_match_concat_error (files : List (String × RunResult)) (fid : String)
    (th : ℚ) (disc : RunResult → RunResult) (keep : Bool)
    (h : ∀ fr ∈ files, containsSub fid fr.1 = false) :
    multi_run_study_analysis_prepare files fid th disc keep
      = .error "No objects to concatenate" := by
  have hfil : files.filter (fun fr => containsSub fid fr.1) = [] := by
    rw [List.filter_eq_nil_iff]
    intro fr hfr
    simp [h fr hfr]
  simp [multi_run_study_analysis_prepare, prepRuns, hfil]

/-- Witness for C6, on a directory holding one file whose name lacks the
default `result_` identifier. -/
theorem empty_match_concat_error_witness :
    (∀ fr ∈ [("study_1.pkl", sampleRun)], containsSub "result_" fr.1 = false)
    ∧ multi_run_study_analysis_prepare [("study_1.pkl", sampleRun)] "result_" (1/2) id false
        = .error "No objects to concatenate" :=
  ⟨by decide, empty_match_concat_error _ _ _ _ _ (by decide)⟩

/-- C7.  On a table free of the seven score names — as the documented input
format `all_study_params_agg` is — `get_scores` appends exactly the columns
`tpr`, `tnr`, `precision`, `accuracy`, `youden`, `f1_score`, `mcc` on the
right, in that order, and every pre-existing column (in particular `tp`, `tn`,
`fp`, `fn`) keeps its values in every row. -/
theorem get_scores_appends_preserves (df : DF)
    (h : ∀ c ∈ scoreNames, hasCol df c = false) :
    (∀ c, hasCol df c = true → getCol (get_scores df) c = getCol df c)
    ∧ colNames (get_scores df) = colNames df ++ scoreNames := by
  rw [get_scores_eq_append df h]
  constructor
  · intro c hcol
    rw [getCol_append, if_pos hcol]
  · rw [colNames_append]
    simp [colNames, scoreNames]

/-- Witness for C7, on the concrete one-row table `exampleAgg`: its columns
are fresh of the score names, its `tp` column is untouched, and the seven
score columns are appended. -/
theorem get_scores_appends_preserves_witness :
    (∀ c ∈ scoreNames, hasCol exampleAgg c = false)
    ∧ getCol (get_scores exampleAgg) "tp" = getCol exampleAgg "tp"
    ∧ colNames (get_scores exampleAgg) = colNames exampleAgg ++ scoreNames :=
  ⟨by decide,
   (get_scores_appends_preserves exampleAgg (by decide)).1 "tp" (by decide),
   (get_scores_appends_preserves exampleAgg (by decide)).2⟩

/-- C8.  On the aggregated row `tp=8, tn=7, fp=3, fn=2`, `get_scores` computes
`tpr = 8/10`, `tnr = 7/10`, `precision = 8/11`, `accuracy = 15/20 = 3/4` and
`youden = 1/2`. -/
theorem scores_example_values :
    getCol (get_scores exampleAgg) "tpr" = [PVal.num (8/10)]
    ∧ getCol (get_scores exampleAgg) "tnr" = [PVal.num (7/10)]
    ∧ getCol (get_scores exampleAgg) "precision" = [PVal.num (8/11)]
    ∧ getCol (get_scores exampleAgg) "accuracy" = [PVal.num (15/20)]
    ∧ getCol (get_scores exampleAgg) "youden" = [PVal.num (1/2)] := by
  rw [get_scores_eq_append exampleAgg (by decide)]
  refine ⟨?_, ?_, ?_, ?_, ?_⟩ <;>
    simp [exampleAgg, getCol_append, getCol, hasCol, tprCol, tnrCol, precisionCol,
      accuracyCol, youdenCol, zipWith4, tprVal, tnrVal, precisionVal, accuracyVal,
      youdenVal, PVal.add, PVal.sub, PVal.div, PVal.fillna] <;>
    norm_num [PVal.add, PVal.sub, PVal.div, PVal.fillna]

/-- C9.  In `multi_run_study_analysis_multi_model_prepare` the finalization of
a second-level sub-result is guarded by `"mean_nonzero" in params.columns`: a
params table lacking that column is returned entirely unchanged (no
`final_parameter` column is added), whereas the single-model finalizer
assigns `final_parameter` unconditionally. -/
theorem multi_model_skips_missing_mean_nonzero (th : ℚ) (params other : DF)
    (h : hasCol params "mean_nonzero" = false) :
    finalizeParamsMultiModel th params = params
    ∧ hasCol (finalizeParams th other) "final_parameter" = true := by
  constructor
  · simp [finalizeParamsMultiModel, h]
  · exact hasCol_setCol_self other "final_parameter" _

/-- Witness for C9, on a params table holding only `mean` and
`inclusion_prob` columns. -/
theorem multi_model_skips_missing_mean_nonzero_witness :
    hasCol [("mean", [PVal.num 1]), ("inclusion_prob", [PVal.num 1])] "mean_nonzero" = false
    ∧ finalizeParamsMultiModel (1/2) [("mean", [PVal.num 1]), ("inclusion_prob", [PVal.num 1])]
        = [("mean", [PVal.num 1]), ("inclusion_prob", [PVal.num 1])]
    ∧ hasCol (finalizeParams (1/2) [("mean", [PVal.num 1]), ("inclusion_prob", [PVal.num 1])])
        "final_parameter" = true :=
  ⟨by decide,
   (multi_model_skips_missing_mean_nonzero (1/2) _ [] (by decide)).1,
   (multi_model_skips_missing_mean_nonzero (1/2) [] _ (by decide)).2⟩

/-- C10.  The directory loop appends one processed run per matching file
regardless of `keep_results`; the runs collected with `keep_results=False`
are exactly the runs collected with `keep_results=True` with their
`_MCMCResult__raw_params` mapping emptied and every other attribute
unchanged. -/
theorem keep_results_only_strips_raw_params (files : List (String × RunResult))
    (fid : String) (th : ℚ) (disc : RunResult → RunResult) :
    prepRuns files fid th disc false
      = (prepRuns files fid th disc true).map (fun r => { r with raw_params := [] })
    ∧ ∀ keep : Bool, (prepRuns files fid th disc keep).length
        = (files.filter (fun fr => containsSub fid fr.1)).length := by
  constructor
  · simp [prepRuns, processRun, List.map_map, Function.comp]
  · intro keep
    simp [prepRuns]
